import Mathlib

/-!
Verification development for the macro-expansion core of `hy`
(`src/hy/macros.py`).  The Python source is shallowly embedded as
executable Lean definitions: syntax trees become an inductive `Model`,
macro callables become `Macro` records, the mutable compiler object and
the mutable target macro tables are threaded explicitly, and the
filesystem / import machinery (external collaborators) is abstracted
into a `World` record of oracles.  The `mangle` canonicalization lives
in `hy.reader` (outside the covered source), so every definition and
theorem is parametrized by an arbitrary `mangle : String → String`.
-/

/-- The Hy syntax-tree model (`hy.models`): a `Symbol`, an `Expression`,
a `List` model, or an opaque literal.  Source positions are not modeled;
the claims under study only concern structural content. -/
inductive Model where
  | sym : String → Model
  | expr : List Model → Model
  | listM : List Model → Model
  | lit : Int → Model

/-- A raw Python value as returned by a macro body or passed as the
input tree: either already a canonical `Model`, or a raw list / raw
integer that `as_model` must wrap. -/
inductive PyVal where
  | m : Model → PyVal
  | rawList : List PyVal → PyVal
  | rawInt : Int → PyVal

mutual
/-- Modelled from the spec: `hy.models.as_model` (not under `src/`)
normalizes a raw value into canonical tree-value form, wrapping raw
lists and literals consistently; an already-canonical `Model` is
returned unchanged. -/
def as_model : PyVal → Model
  | .m x => x
  | .rawInt n => .lit n
  | .rawList xs => .listM (as_model_list xs)

/-- Pointwise `as_model` over a raw Python list. -/
def as_model_list : List PyVal → List Model
  | [] => []
  | x :: xs => as_model x :: as_model_list xs
end

/-- Modelled from the spec: `hy.models.replace_hy_obj` (not under
`src/`) converts a macro-returned value to canonical form, copying
source positions from the original call form onto the replacement;
positions are not modeled, so only the conversion remains. -/
def replace_hy_obj (obj : PyVal) (_tree : Model) : Model := as_model obj

mutual
/-- Modelled from the spec: the textual rendering `str(model)` used in
diagnostics (the "head-text" of a call form). -/
def modelStr : Model → String
  | .sym s => s
  | .lit n => toString n
  | .expr xs => "(" ++ modelStrList xs ++ ")"
  | .listM xs => "[" ++ modelStrList xs ++ "]"

/-- Space-separated rendering of a model sequence. -/
def modelStrList : List Model → String
  | [] => ""
  | [x] => modelStr x
  | x :: y :: xs => modelStr x ++ " " ++ modelStrList (y :: xs)
end

/-- A defined language error (`HyLanguageError` subclass): its concrete
class is recorded in `kind`, its message in `msg`; `tree`, `filename`
and `source` are the diagnostic payload carried by
`HyMacroExpansionError` (itself a `HyLanguageError`). -/
structure LangErr where
  kind : String
  msg : String
  tree : Option Model
  filename : Option String
  source : Option String

/-- A Python exception crossing the macro-invocation boundary: either a
defined language error, or any other exception, represented by its
formatted one-line description (`traceback.format_exception_only`). -/
inductive Exc where
  | lang : LangErr → Exc
  | other : String → Exc

/-- The slice of the compiler object a macro body can observe in this
model: the "current expression" slot `this`, and the diagnostic
`filename` / `source` fields. -/
structure CompilerCtx where
  thisE : Option Model
  filename : Option String
  source : Option String

/-- The outcome of invoking a macro body: a replacement value, a
terminal compiled-result sentinel (`hy.compiler.Result` or a host
`ast.AST`, represented opaquely by an id), or a raised exception. -/
inductive MacroRet where
  | val : PyVal → MacroRet
  | result : Nat → MacroRet
  | raises : Exc → MacroRet

/-- A macro definition: an invocable entity of fixed identity (`id`,
used to distinguish marker macros in theorems) whose body receives the
compiler context and the unexpanded argument forms. -/
structure Macro where
  id : Nat
  run : Option CompilerCtx → List Model → MacroRet

/-- One entry of `compiler.local_state_stack`: a lexical scope frame
holding its `macros` table (`d['macros']` in the source). -/
structure ScopeFrame where
  macros : List (String × Macro)

/-- The compiler collaborator (`HyASTCompiler`) as seen by this core:
the lexical scope stack, the mutable `this` slot (named `thisE` here
because `this` is reserved in Lean), the diagnostic fields, and the
identity of `compiler.module` (checked by the assert in `macroexpand`). -/
structure Compiler where
  local_state_stack : List ScopeFrame
  thisE : Option Model
  filename : Option String
  source : Option String
  moduleId : Nat

/-- A Python module as this core sees it: object identity `id`,
`__name__`, `__file__` (none when the attribute would be unusable),
its `_hy_macros` table and optional `_hy_export_macros` list. -/
structure PyModule where
  id : Nat
  name : String
  file : Option String
  hy_macros : List (String × Macro)
  hy_export_macros : Option (List String)

/-- The external collaborators of the core, abstracted as oracles:
the process-wide `builtins._hy_macros` table, the
`find_spec`/`SourceFileLoader` filename probe used by `_same_modules`
(probe failures collapse to `none`), the canonical filesystem identity
test `os.path.samefile` (probe failures collapse to `false`), and the
module importer `importlib.import_module name package` (an `ImportError`
carries its message). -/
structure World where
  builtinMacros : List (String × Macro)
  findSpecFile : String → Option String
  samefile : String → String → Bool
  pyImport : String → Option String → Except String PyModule

/-- Dictionary lookup `tbl[fn]` returning `none` when absent. -/
def lookupTable (tbl : List (String × Macro)) (fn : String) : Option Macro :=
  (tbl.find? (fun p => p.1 == fn)).map (fun p => p.2)

/-- Dictionary assignment `tbl[k] = v`: overwrite an existing binding
or append a new one. -/
def tblSet (tbl : List (String × Macro)) (k : String) (v : Macro) :
    List (String × Macro) :=
  if tbl.any (fun p => p.1 == k) then
    tbl.map (fun p => if p.1 == k then (k, v) else p)
  else tbl ++ [(k, v)]

/-- Scan of the compiler scope stack (`macroexpand` lines 371-375):
`reversed(compiler.local_state_stack)` is searched for the first frame
whose `macros` table binds `fn`, i.e. innermost (last-pushed) first. -/
def scopeResolve (stack : List ScopeFrame) (fn : String) : Option Macro :=
  stack.reverse.findSome? (fun d => lookupTable d.macros fn)

/-- Head-name resolution (`macroexpand` lines 370-380): the scope-stack
scan when a compiler is supplied, else (or on a miss, since a found
macro function is always truthy and `None` is falsy in the `or` chain)
the fallback module's `_hy_macros`, else `builtins._hy_macros`. -/
def resolveHeadName (compiler : Option Compiler) (md : PyModule) (w : World)
    (fn : String) : Option Macro :=
  (compiler.bind (fun c => scopeResolve c.local_state_stack fn)) <|>
    (lookupTable md.hy_macros fn <|> lookupTable w.builtinMacros fn)

/-- Head-key computation (`macroexpand` lines 362-368): a head that is a
non-empty `Expression` starting with `Symbol "."` yields the
"."-joined mangle of its remaining components (`mangle` receives the
`str` of each component); a `Symbol` head yields its mangle; any other
head shape yields no key (the loop breaks). -/
def headKey (mangle : String → String) : Model → Option String
  | .sym s => some (mangle s)
  | .expr (Model.sym h :: rest) =>
      if h == "." then
        some (String.intercalate "." (rest.map (fun x => mangle (modelStr x))))
      else none
  | _ => none

/-- Indexing `tree[0]` as used by `MacroExceptions.__exit__`; in the
expansion engine the wrapped tree is always a non-empty `Expression`,
so the fall-through cases are unreachable there. -/
def treeHead : Model → Model
  | .expr (f :: _) => f
  | .listM (f :: _) => f
  | t => t

/-- Embeds `MacroExceptions.__exit__` (lines 304-324): no exception is passed
through silently; a `HyLanguageError` propagates unchanged (`return
False`); any other exception is re-raised as a `HyMacroExpansionError`
whose message is "expanding macro " ++ str(tree[0]) ++ "\n  " ++ the
original exception's formatted description, carrying the offending call
form and, when a compiler is available, its `filename` and `source`. -/
def macroExceptionsExit (macro_tree : Model) (compiler : Option Compiler)
    (exc : Option Exc) : Option Exc :=
  match exc with
  | none => none
  | some (Exc.lang e) => some (Exc.lang e)
  | some (Exc.other desc) =>
      let filename := match compiler with
        | some c => c.filename
        | none => none
      let source := match compiler with
        | some c => c.source
        | none => none
      let msg := "expanding macro " ++ modelStr (treeHead macro_tree)
        ++ "\n  " ++ desc
      some (Exc.lang
        (LangErr.mk "HyMacroExpansionError" msg (some macro_tree) filename source))

/-- The mutation `compiler.this = tree` performed before each macro
invocation (line 386); a `None` compiler is left untouched. -/
def setThis (c : Option Compiler) (tr : Model) : Option Compiler :=
  c.map (fun cc => { cc with thisE := some tr })

/-- The view of the compiler handed to a macro body. -/
def ctxOf (c : Compiler) : CompilerCtx :=
  { thisE := c.thisE, filename := c.filename, source := c.source }

/-- The value `macroexpand` produces: a tree, a terminal compiled-result
sentinel, a raised exception, or fuel exhaustion (a Lean-only artifact:
the Python `while` loop has no step bound, so the embedding counts
macro invocations; every theorem supplies sufficient fuel). -/
inductive ExpandResult where
  | tree : Model → ExpandResult
  | result : Nat → ExpandResult
  | error : Exc → ExpandResult
  | fuelOut : ExpandResult

/-- The expansion loop of `macroexpand` (lines 360-397).  State is the
current tree value plus the threaded compiler (its `this` slot is
mutated in place in Python).  Fuel bounds only the number of macro
invocations: every halt path (non-Expression tree, empty Expression,
unusable head, unresolved name) is taken regardless of fuel and returns
`as_model` of the current tree; a raised exception is filtered through
`MacroExceptions.__exit__`; a compiled-result sentinel returns `obj` if
`result_ok` else the pre-expansion tree, both bypassing `as_model`. -/
def macroexpandGo (w : World) (md : PyModule) (mangle : String → String)
    (once result_ok : Bool) :
    Nat → PyVal → Option Compiler → ExpandResult × Option Compiler
  | Nat.succ fuel', PyVal.m (Model.expr (f :: args)), c =>
    (match headKey mangle f with
     | none => (ExpandResult.tree (as_model (PyVal.m (Model.expr (f :: args)))), c)
     | some fn =>
       match resolveHeadName c md w fn with
       | none => (ExpandResult.tree (as_model (PyVal.m (Model.expr (f :: args)))), c)
       | some mac =>
         let tr := Model.expr (f :: args)
         let c' := setThis c tr
         match mac.run (c'.map ctxOf) args with
         | MacroRet.raises e =>
             (ExpandResult.error ((macroExceptionsExit tr c' (some e)).getD e), c')
         | MacroRet.result r =>
             ((if result_ok then ExpandResult.result r else ExpandResult.tree tr), c')
         | MacroRet.val v =>
             let tree2 := replace_hy_obj v tr
             if once then (ExpandResult.tree (as_model (PyVal.m tree2)), c')
             else macroexpandGo w md mangle once result_ok fuel' (PyVal.m tree2) c')
  | 0, PyVal.m (Model.expr (f :: args)), c =>
    (match headKey mangle f with
     | none => (ExpandResult.tree (as_model (PyVal.m (Model.expr (f :: args)))), c)
     | some fn =>
       match resolveHeadName c md w fn with
       | none => (ExpandResult.tree (as_model (PyVal.m (Model.expr (f :: args)))), c)
       | some _ => (ExpandResult.fuelOut, c))
  | _, tree, c => (ExpandResult.tree (as_model tree), c)

/-- A module argument that may be a live module or an importable name
(also the shape `_same_modules` receives; `noneRef` is Python `None`). -/
inductive ModRef where
  | m : PyModule → ModRef
  | nameRef : String → ModRef
  | noneRef : ModRef

/-- The `assert not compiler or compiler.module == module` guard of
`macroexpand` (line 358). -/
def assertCompilerModule (compiler : Option Compiler) (md : PyModule) : Bool :=
  match compiler with
  | none => true
  | some c => c.moduleId == md.id

/-- Embeds `macroexpand` (lines 327-397): a string module argument is imported
first (a failure propagates as a raw `ImportError` message, and `None`
is not importable); the module assert is checked; then the expansion
loop runs. -/
def macroexpand (w : World) (module : ModRef) (tree : PyVal)
    (compiler : Option Compiler) (once result_ok : Bool)
    (mangle : String → String) (fuel : Nat) :
    Except String (ExpandResult × Option Compiler) :=
  match module with
  | ModRef.m md =>
      if assertCompilerModule compiler md then
        Except.ok (macroexpandGo w md mangle once result_ok fuel tree compiler)
      else Except.error "AssertionError"
  | ModRef.nameRef s =>
      match w.pyImport s none with
      | Except.ok md =>
          if assertCompilerModule compiler md then
            Except.ok (macroexpandGo w md mangle once result_ok fuel tree compiler)
          else Except.error "AssertionError"
      | Except.error e => Except.error e
  | ModRef.noneRef => Except.error "TypeError"

/-- Embeds `macroexpand_1` (lines 400-403): single-step expansion. -/
def macroexpand_1 (w : World) (module : ModRef) (tree : PyVal)
    (compiler : Option Compiler) (mangle : String → String) (fuel : Nat) :
    Except String (ExpandResult × Option Compiler) :=
  macroexpand w module tree compiler true true mangle fuel

/-- Python truthiness of a module-or-name value: `None` and the empty
string are falsy, every module object and non-empty name is truthy. -/
def truthyRef : ModRef → Bool
  | ModRef.m _ => true
  | ModRef.nameRef s => !(s == "")
  | ModRef.noneRef => false

/-- The `target_module is source_module` object-identity shortcut of
`_same_modules` (line 98): module objects compare by identity; module
name strings are interned by CPython, so equal names are identical. -/
def identicalRef : ModRef → ModRef → Bool
  | ModRef.m a, ModRef.m b => a.id == b.id
  | ModRef.nameRef a, ModRef.nameRef b => a == b
  | _, _ => false

/-- Embeds `get_filename` inside `_same_modules` (lines 101-107): a module
object answers with `inspect.getfile` (its recorded file), a name with
the `find_spec` / `SourceFileLoader` probe; any failure, including
probing `None`, yields no filename (the caller catches the error). -/
def get_filename (w : World) : ModRef → Option String
  | ModRef.m md => md.file
  | ModRef.nameRef s => w.findSpecFile s
  | ModRef.noneRef => none

/-- Embeds `_same_modules` (lines 90-114): `False` when both arguments are
falsy; the object-identity shortcut; otherwise the two filenames are
compared with `os.path.samefile`, any missing filename or filesystem
error counting as "not the same". -/
def same_modules (w : World) (src tgt : ModRef) : Bool :=
  if !(truthyRef src || truthyRef tgt) then false
  else if identicalRef src tgt then true
  else
    match get_filename w src, get_filename w tgt with
    | some a, some b => w.samefile a b
    | _, _ => false

/-- The `target` argument of `require`: `None` (the calling module), a
module name, a module object, or a raw dictionary. -/
inductive Target where
  | noneT : Target
  | str : String → Target
  | mod : PyModule → Target
  | dict : List (String × Macro) → Target

/-- The `assignments` argument of `require`: `"ALL"`, `"EXPORTS"`, or
an explicit list of (macro name, alias) pairs. -/
inductive Assignments where
  | all : Assignments
  | exports : Assignments
  | list : List (String × String) → Assignments

/-- The exception kinds `require` can raise: `HyRequireError`,
`HyTypeError` (unrecognized target type), and a raw `ImportError`
escaping `derive_target_module`. -/
inductive RErr where
  | requireErr : String → RErr
  | typeErr : String → RErr
  | importErr : String → RErr
deriving DecidableEq

/-- Embeds `derive_target_module` (lines 117-130): `None` resolves to the
calling module's name (with the caller's namespace), a string is imported
(a failure escapes as a raw `ImportError`), a module is itself,
anything else raises `HyTypeError`.  The associated namespace table is
threaded separately by the embedding. -/
def deriveTargetModule (w : World) (caller : PyModule) :
    Target → Except RErr ModRef
  | Target.noneT => Except.ok (ModRef.nameRef caller.name)
  | Target.str s =>
      match w.pyImport s none with
      | Except.ok md => Except.ok (ModRef.m md)
      | Except.error e => Except.error (RErr.importErr e)
  | Target.mod md => Except.ok (ModRef.m md)
  | Target.dict _ =>
      Except.error (RErr.typeErr "target_module is not a recognized type")

/-- The `while` normalization loop of `import_module_from_string`
(lines 138-140): strip one leading empty component from the relative
path per stripped trailing component of the package path. -/
def relWalk : List String → List String → List String × List String
  | s :: s2 :: rest, tdirs =>
      if s == "" && !tdirs.isEmpty then relWalk (s2 :: rest) tdirs.dropLast
      else (s :: s2 :: rest, tdirs)
  | sdirs, tdirs => (sdirs, tdirs)

/-- Embeds `import_module_from_string` (lines 133-145): resolve a leading-dot
relative module path against the package module's qualified name, then
delegate to `importlib.import_module`; an `ImportError` is re-raised as
`HyRequireError` with the same message. -/
def load_module_from_string (w : World) (module_name : String)
    (package_module : String) : Except RErr PyModule :=
  let package : Option String :=
    if module_name.startsWith "." then
      let p := relWalk (module_name.splitOn ".") (package_module.splitOn ".")
      some (String.intercalate "." (p.2 ++ p.1.dropLast))
    else none
  match w.pyImport module_name package with
  | Except.ok md => Except.ok md
  | Except.error msg => Except.error (RErr.requireErr msg)

/-- The `__name__` a module-or-name value exposes to
`import_module_from_string` as its package context. -/
def refName : ModRef → String
  | ModRef.m md => md.name
  | ModRef.nameRef s => s
  | ModRef.noneRef => ""

/-- The `target_module_name or target_module or ''` chain of `require`
(line 211): the first truthy value wins, the empty string is falsy. -/
def pkgString (tmn : Option String) (tm : ModRef) : String :=
  match tmn with
  | some s => if s == "" then (if truthyRef tm then refName tm else "") else s
  | none => if truthyRef tm then refName tm else ""

/-- The `target_module or target` argument of the recursive `require`
call (line 227): the derived target module when truthy, else the
original target (e.g. the raw dictionary). -/
def modRefToTarget : ModRef → Target → Target
  | ModRef.m md, _ => Target.mod md
  | ModRef.nameRef s, orig => if s == "" then orig else Target.str s
  | ModRef.noneRef, orig => orig

/-- Abridged `str(module)` as used in require error messages; the
claims only need the message to name the source module. -/
def moduleDisplay (md : PyModule) : String :=
  "<module '" ++ md.name ++ "'>"

/-- Embeds the `str(source_module.__file__)` text interpolated into the
error for a failed submodule require (Python prints `None` when the
recorded file is missing). -/
def fileDisplay (md : PyModule) : String :=
  match md.file with
  | some f => f
  | none => "None"

/-- The per-name transfer loop of `require` (lines 244-264): mangle the
requested name, mangle the prefixed alias, copy the binding from the
source table into the target table, or raise `HyRequireError` naming
the missing mangled name and the source module.  Writes made before a
failure stay in the returned table, exactly as the Python loop mutates
the target dictionary in place.  The `compiler.warn_on_core_shadow`
hook (a warning with no effect on any modeled result) is omitted. -/
def transferLoop (mangle : String → String) (sm : PyModule) (pfx2 : String) :
    List (String × String) → List (String × Macro) →
    Except (String × List (String × Macro)) (List (String × Macro))
  | [], tbl => Except.ok tbl
  | (name, als) :: rest, tbl =>
    let n := mangle name
    let a := mangle (pfx2 ++ als)
    match lookupTable sm.hy_macros n with
    | some mac => transferLoop mangle sm pfx2 rest (tblSet tbl a mac)
    | none => Except.error
        ("Could not require name " ++ n ++ " from " ++ moduleDisplay sm, tbl)


/-- Embeds `require` (lines 186-264) specialized to `assignments = "ALL"`, the
only shape the recursive call of the submodule fallback ever uses.  For
`"ALL"` the empty-source branch returns `False` (line 222) instead of
recursing, so this specialization is non-recursive; the lemma
`require_all_eq_core` checks it against the general `require`.  The
mutable target macro table is threaded as `tbl` and returned. -/
def requireAllCore (w : World) (caller : PyModule) (mangle : String → String)
    (source : ModRef) (target : Target) (tbl : List (String × Macro))
    (pfx : String) (tmn : Option String) :
    (Except RErr Bool) × List (String × Macro) :=
  let tmRes : Except RErr ModRef :=
    match target with
    | Target.dict _ => Except.ok ModRef.noneRef
    | _ => deriveTargetModule w caller target
  match tmRes with
  | Except.error e => (Except.error e, tbl)
  | Except.ok tm =>
    if (match target with
        | Target.dict _ => false
        | _ => same_modules w source tm) then
      (Except.ok false, tbl)
    else
      let srcRes : Except RErr PyModule :=
        match source with
        | ModRef.m md => Except.ok md
        | ModRef.nameRef s => load_module_from_string w s (pkgString tmn tm)
        | ModRef.noneRef => Except.error (RErr.requireErr "cannot require from None")
      match srcRes with
      | Except.error e => (Except.error e, tbl)
      | Except.ok sm =>
        if sm.hy_macros.isEmpty then
          (Except.ok false, tbl)
        else
          let pfx2 := if pfx == "" then pfx else pfx ++ "."
          let pairs := sm.hy_macros.map (fun p => (p.1, p.1))
          match transferLoop mangle sm pfx2 pairs tbl with
          | Except.ok tbl2 => (Except.ok true, tbl2)
          | Except.error p => (Except.error (RErr.requireErr p.1), p.2)

/-- The empty-source submodule fallback of `require` (lines 223-237):
each bare requested name is required recursively as the submodule
`source.name` with `ALL` semantics under the alias as prefix; a
`HyRequireError` raised by the recursion is re-raised as the
"Cannot import name" error, leaving any table writes already made
by the recursion in place (the shared dictionary is mutated in place). -/
def requireSubmodsGo (w : World) (caller : PyModule) (mangle : String → String)
    (sm : PyModule) (tgt : Target) :
    List (String × String) → List (String × Macro) →
    (Except RErr Bool) × List (String × Macro)
  | [], tbl => (Except.ok true, tbl)
  | (name, als) :: rest, tbl =>
    match requireAllCore w caller mangle
        (ModRef.nameRef (sm.name ++ "." ++ mangle name)) tgt tbl als none with
    | (Except.error (RErr.requireErr _), tblX) =>
        (Except.error (RErr.requireErr
          ("Cannot import name '" ++ name ++ "' from '" ++ sm.name ++ "' ("
            ++ fileDisplay sm ++ ")")), tblX)
    | (Except.error e, tblX) => (Except.error e, tblX)
    | (Except.ok _, tbl2) => requireSubmodsGo w caller mangle sm tgt rest tbl2

/-- Embeds `require` (lines 186-264).  The mutable target macro table (the
dictionary shared by every alias of the target — the raw dict, or the
`_hy_macros` of the derived target namespace) is threaded as `tbl`; the
result pairs the return value or raised error with the final table
contents.  The recursive submodule fallback always passes `"ALL"`, for
which the body never recurses again, so the recursion is unrolled into
`requireSubmodsGo` over `requireAllCore`. -/
def require (w : World) (caller : PyModule) (mangle : String → String)
    (source : ModRef) (target : Target) (tbl : List (String × Macro))
    (assignments : Assignments) (pfx : String) (tmn : Option String) :
    (Except RErr Bool) × List (String × Macro) :=
  let tmRes : Except RErr ModRef :=
    match target with
    | Target.dict _ => Except.ok ModRef.noneRef
    | _ => deriveTargetModule w caller target
  match tmRes with
  | Except.error e => (Except.error e, tbl)
  | Except.ok tm =>
    if (match target with
        | Target.dict _ => false
        | _ => same_modules w source tm) then
      (Except.ok false, tbl)
    else
      let srcRes : Except RErr PyModule :=
        match source with
        | ModRef.m md => Except.ok md
        | ModRef.nameRef s => load_module_from_string w s (pkgString tmn tm)
        | ModRef.noneRef => Except.error (RErr.requireErr "cannot require from None")
      match srcRes with
      | Except.error e => (Except.error e, tbl)
      | Except.ok sm =>
        if sm.hy_macros.isEmpty then
          match assignments with
          | Assignments.all => (Except.ok false, tbl)
          | Assignments.exports => (Except.ok false, tbl)
          | Assignments.list pairs =>
              requireSubmodsGo w caller mangle sm (modRefToTarget tm target)
                pairs tbl
        else
          let source_exports := sm.hy_export_macros.getD
            ((sm.hy_macros.map Prod.fst).filter (fun k => !(k.startsWith "_")))
          let pfx2 := if pfx == "" then pfx else pfx ++ "."
          let pairs := match assignments with
            | Assignments.list ps => ps
            | Assignments.all => sm.hy_macros.map (fun p => (p.1, p.1))
            | Assignments.exports =>
                ((sm.hy_macros.map Prod.fst).filter
                  (fun k => source_exports.contains k)).map (fun k => (k, k))
          match transferLoop mangle sm pfx2 pairs tbl with
          | Except.ok tbl2 => (Except.ok true, tbl2)
          | Except.error p => (Except.error (RErr.requireErr p.1), p.2)

/-- Sanity check of the unrolling: the general `require` at `"ALL"` is
exactly the specialized `requireAllCore`. -/
theorem require_all_eq_core (w : World) (caller : PyModule)
    (mangle : String → String) (source : ModRef) (target : Target)
    (tbl : List (String × Macro)) (pfx : String) (tmn : Option String) :
    require w caller mangle source target tbl Assignments.all pfx tmn
      = requireAllCore w caller mangle source target tbl pfx tmn := by
  unfold require requireAllCore
  rcases target with _ | s | md | d <;> dsimp only

/-- Appending a frame to the scope stack makes it the innermost
(first-scanned) table: `reversed` puts the last-pushed frame first. -/
theorem scopeResolve_append (rest : List ScopeFrame) (d : ScopeFrame)
    (fn : String) :
    scopeResolve (rest ++ [d]) fn
      = (lookupTable d.macros fn <|> scopeResolve rest fn) := by
  cases h : lookupTable d.macros fn <;>
    simp [scopeResolve, List.findSome?_cons, h]

/-- Marker macro used by concrete witnesses: ignores its inputs and
returns the raw literal `k`. -/
def markerMac (i : Nat) (k : Int) : Macro :=
  Macro.mk i (fun _ _ => MacroRet.val (PyVal.rawInt k))

/-- Witness world with no builtin macros and failing probes. -/
def wEmpty : World :=
  World.mk [] (fun _ => none) (fun _ _ => false)
    (fun _ _ => Except.error "nope")

/-- Witness world whose builtin table binds `"f"` to marker 3. -/
def wBuiltinF : World :=
  World.mk [("f", markerMac 3 3)] (fun _ => none) (fun _ _ => false)
    (fun _ _ => Except.error "nope")

/-- Witness module binding `"f"` to marker 2 in its own macro table. -/
def mdModF : PyModule :=
  PyModule.mk 10 "mod" (some "mod.py") [("f", markerMac 2 2)] none

/-- Witness module with an empty macro table. -/
def mdNoMacros : PyModule :=
  PyModule.mk 11 "empty" (some "empty.py") [] none

/-- Witness compiler with an empty scope stack, over module id 10. -/
def cBase : Compiler := Compiler.mk [] none none none 10

/-- C1: head-name resolution during macroexpand follows the strict
order: the compiler's scope stack innermost (last-pushed) frame first —
an innermost binding masks every outer frame and both module tables —
then the remaining stack, then (with or without a compiler, once the
stack misses) the fallback module's own macro table, then the
process-wide builtin table; and when no table binds the name, expansion
halts and returns the tree. -/
theorem C1_resolution_order :
    (∀ (c : Compiler) (md : PyModule) (w : World) (fn : String)
        (rest : List ScopeFrame) (d : ScopeFrame) (mac : Macro),
        lookupTable d.macros fn = some mac →
        resolveHeadName (some { c with local_state_stack := rest ++ [d] })
          md w fn = some mac)
    ∧ (∀ (c : Compiler) (md : PyModule) (w : World) (fn : String)
        (rest : List ScopeFrame) (d : ScopeFrame),
        lookupTable d.macros fn = none →
        resolveHeadName (some { c with local_state_stack := rest ++ [d] })
          md w fn
          = resolveHeadName (some { c with local_state_stack := rest }) md w fn)
    ∧ (∀ (c : Compiler) (md : PyModule) (w : World) (fn : String) (mac : Macro),
        scopeResolve c.local_state_stack fn = none →
        lookupTable md.hy_macros fn = some mac →
        resolveHeadName (some c) md w fn = some mac)
    ∧ (∀ (c : Compiler) (md : PyModule) (w : World) (fn : String),
        scopeResolve c.local_state_stack fn = none →
        lookupTable md.hy_macros fn = none →
        resolveHeadName (some c) md w fn = lookupTable w.builtinMacros fn)
    ∧ (∀ (md : PyModule) (w : World) (fn : String) (mac : Macro),
        lookupTable md.hy_macros fn = some mac →
        resolveHeadName none md w fn = some mac)
    ∧ (∀ (md : PyModule) (w : World) (fn : String),
        lookupTable md.hy_macros fn = none →
        resolveHeadName none md w fn = lookupTable w.builtinMacros fn)
    ∧ (∀ (w : World) (md : PyModule) (mangle : String → String)
        (once rok : Bool) (fuel : Nat) (c : Option Compiler)
        (f : Model) (args : List Model) (fn : String),
        headKey mangle f = some fn →
        resolveHeadName c md w fn = none →
        macroexpandGo w md mangle once rok fuel
          (PyVal.m (Model.expr (f :: args))) c
          = (ExpandResult.tree (Model.expr (f :: args)), c)) := by
  refine ⟨?_, ?_, ?_, ?_, ?_, ?_, ?_⟩
  · intro c md w fn rest d mac h
    simp [resolveHeadName, scopeResolve_append, h]
  · intro c md w fn rest d h
    simp [resolveHeadName, scopeResolve_append, h]
  · intro c md w fn mac h1 h2
    simp [resolveHeadName, h1, h2]
  · intro c md w fn h1 h2
    simp [resolveHeadName, h1, h2]
  · intro md w fn mac h
    simp [resolveHeadName, h]
  · intro md w fn h
    simp [resolveHeadName, h]
  · intro w md mangle once rok fuel c f args fn h1 h2
    cases fuel <;> simp [macroexpandGo, h1, h2, as_model]

/-- Concrete instance of C1: with `"f"` bound to distinguishable marker
macros in an innermost scope frame, the module table and the builtin
table, resolution picks the innermost marker; removing the innermost
binding falls back to the module marker; removing that falls back to
the builtin marker; and with no binding anywhere, a call to `f` is
returned untouched by the expansion loop. -/
theorem C1_resolution_order_witness :
    resolveHeadName
        (some { cBase with
                  local_state_stack :=
                    [ScopeFrame.mk [], ScopeFrame.mk [("f", markerMac 1 1)]] })
        mdModF wBuiltinF "f" = some (markerMac 1 1)
    ∧ resolveHeadName (some cBase) mdModF wBuiltinF "f" = some (markerMac 2 2)
    ∧ resolveHeadName (some cBase) mdNoMacros wBuiltinF "f"
        = lookupTable wBuiltinF.builtinMacros "f"
    ∧ lookupTable wBuiltinF.builtinMacros "f" = some (markerMac 3 3)
    ∧ macroexpandGo wEmpty mdNoMacros (fun s => s) false true 5
        (PyVal.m (Model.expr [Model.sym "f"])) none
        = (ExpandResult.tree (Model.expr [Model.sym "f"]), none) := by
  refine ⟨?_, ?_, ?_, rfl, ?_⟩
  · exact C1_resolution_order.1 cBase mdModF wBuiltinF "f"
      [ScopeFrame.mk []] (ScopeFrame.mk [("f", markerMac 1 1)])
      (markerMac 1 1) rfl
  · exact C1_resolution_order.2.2.1 cBase mdModF wBuiltinF "f"
      (markerMac 2 2) rfl rfl
  · exact C1_resolution_order.2.2.2.1 cBase mdNoMacros wBuiltinF "f" rfl rfl
  · exact C1_resolution_order.2.2.2.2.2.2 wEmpty mdNoMacros (fun s => s)
      false true 5 none (Model.sym "f") [] "f" rfl rfl

/-- Witness macro raising a generic (non-language) runtime fault. -/
def macRaisesOther : Macro :=
  Macro.mk 4 (fun _ _ => MacroRet.raises (Exc.other "ValueError: boom\n"))

/-- Witness language error (a `HyLanguageError` that is not a
`HyMacroExpansionError`). -/
def langErrSyntax : LangErr :=
  LangErr.mk "HySyntaxError" "bad token" none none none

/-- Witness macro raising the defined language error above. -/
def macRaisesLang : Macro :=
  Macro.mk 5 (fun _ _ => MacroRet.raises (Exc.lang langErrSyntax))

/-- Witness module binding `"r"` to the generic-fault macro and `"l"`
to the language-error macro. -/
def mdRaise : PyModule :=
  PyModule.mk 12 "modr" (some "modr.py")
    [("r", macRaisesOther), ("l", macRaisesLang)] none

/-- C2: a defined language error raised by a macro body passes through
the diagnostic wrapper unchanged (same kind, same message); any other
exception is re-raised as a `HyMacroExpansionError` whose message is
"expanding macro " ++ the head-text, a newline separator, then the
original exception's own description — in particular the message starts
with "expanding macro <head-text>" — and which carries the offending
call form plus the compiler's filename and source when a compiler
context is available; and the expansion loop routes every exception a
macro raises through exactly this wrapper. -/
theorem C2_exception_wrapping :
    (∀ (tr : Model) (c : Option Compiler) (e : LangErr),
        macroExceptionsExit tr c (some (Exc.lang e)) = some (Exc.lang e))
    ∧ (∀ (tr : Model) (c : Option Compiler) (desc : String),
        macroExceptionsExit tr c (some (Exc.other desc))
          = some (Exc.lang (LangErr.mk "HyMacroExpansionError"
              ("expanding macro " ++ modelStr (treeHead tr) ++ "\n  " ++ desc)
              (some tr) (c.bind Compiler.filename) (c.bind Compiler.source))))
    ∧ (∀ (tr : Model) (c : Option Compiler) (desc : String) (e' : LangErr),
        macroExceptionsExit tr c (some (Exc.other desc))
          = some (Exc.lang e') →
        ∃ rest, e'.msg = "expanding macro " ++ modelStr (treeHead tr) ++ rest)
    ∧ (∀ (w : World) (md : PyModule) (mangle : String → String)
        (once rok : Bool) (fuel : Nat) (c : Option Compiler)
        (f : Model) (args : List Model) (fn : String) (mac : Macro) (e : Exc),
        headKey mangle f = some fn →
        resolveHeadName c md w fn = some mac →
        mac.run ((setThis c (Model.expr (f :: args))).map ctxOf) args
          = MacroRet.raises e →
        macroexpandGo w md mangle once rok (Nat.succ fuel)
          (PyVal.m (Model.expr (f :: args))) c
          = (ExpandResult.error
              ((macroExceptionsExit (Model.expr (f :: args))
                (setThis c (Model.expr (f :: args))) (some e)).getD e),
             setThis c (Model.expr (f :: args)))) := by
  refine ⟨?_, ?_, ?_, ?_⟩
  · intro tr c e
    rfl
  · intro tr c desc
    cases c <;> rfl
  · intro tr c desc e' h
    cases c <;>
      · simp only [macroExceptionsExit, Option.some.injEq, Exc.lang.injEq] at h
        exact ⟨"\n  " ++ desc, by rw [← h]; simp [String.append_assoc]⟩
  · intro w md mangle once rok fuel c f args fn mac e h1 h2 h3
    simp [macroexpandGo, h1, h2, h3]

/-- Concrete instance of C2: over a compiler carrying filename and
source, a macro body raising a generic `ValueError` surfaces from the
expansion loop as a `HyMacroExpansionError` whose message starts with
"expanding macro r" and which carries the call form, filename and
source; a macro body raising a defined language error surfaces with the
same kind and message, unchanged. -/
theorem C2_exception_wrapping_witness :
    macroexpandGo wEmpty mdRaise (fun s => s) false true 5
        (PyVal.m (Model.expr [Model.sym "r"]))
        (some (Compiler.mk [] none (some "file.hy") (some "(r)") 12))
      = (ExpandResult.error (Exc.lang (LangErr.mk "HyMacroExpansionError"
          "expanding macro r\n  ValueError: boom\n"
          (some (Model.expr [Model.sym "r"]))
          (some "file.hy") (some "(r)"))),
         some (Compiler.mk [] (some (Model.expr [Model.sym "r"]))
           (some "file.hy") (some "(r)") 12))
    ∧ macroexpandGo wEmpty mdRaise (fun s => s) false true 5
        (PyVal.m (Model.expr [Model.sym "l"])) none
      = (ExpandResult.error (Exc.lang langErrSyntax), none) := by
  constructor
  · have h := C2_exception_wrapping.2.2.2 wEmpty mdRaise (fun s => s)
      false true 4
      (some (Compiler.mk [] none (some "file.hy") (some "(r)") 12))
      (Model.sym "r") [] "r" macRaisesOther (Exc.other "ValueError: boom\n")
      rfl rfl rfl
    exact h.trans (by rfl)
  · have h := C2_exception_wrapping.2.2.2 wEmpty mdRaise (fun s => s)
      false true 4 none (Model.sym "l") [] "l" macRaisesLang
      (Exc.lang langErrSyntax) rfl rfl rfl
    exact h.trans (by rfl)

/-- C3: when the supplied source and the derived target module resolve
to filenames that `os.path.samefile` reports as the same underlying
file, a non-dict `require` is a no-op: it returns `False` and leaves
the target's macro table unchanged, whatever the assignments.  (The
truthiness hypothesis only excludes the degenerate `None`/empty-name
source, for which no file could resolve anyway.) -/
theorem C3_self_require_noop :
    ∀ (w : World) (caller : PyModule) (mangle : String → String)
      (source : ModRef) (target : Target) (tbl : List (String × Macro))
      (assignments : Assignments) (pfx : String) (tmn : Option String)
      (tm : ModRef) (f g : String),
      (∀ d, target ≠ Target.dict d) →
      deriveTargetModule w caller target = Except.ok tm →
      truthyRef source = true →
      get_filename w source = some f →
      get_filename w tm = some g →
      w.samefile f g = true →
      require w caller mangle source target tbl assignments pfx tmn
        = (Except.ok false, tbl) := by
  intro w caller mangle source target tbl assignments pfx tmn tm f g
    hd hder htr hf hg hsf
  have hsm : same_modules w source tm = true := by
    unfold same_modules
    rw [htr]
    cases hid : identicalRef source tm <;> simp [hid, hf, hg, hsf]
  rcases target with _ | s | md | d
  · simp [require, hder, hsm]
  · simp [require, hder, hsm]
  · simp [require, hder, hsm]
  · exact absurd rfl (hd d)

/-- Witness caller module. -/
def callerBase : PyModule :=
  PyModule.mk 40 "caller" (some "caller.py") [] none

/-- Witness source module living in the file `same.py`. -/
def smSame : PyModule :=
  PyModule.mk 30 "srcm" (some "same.py") [("x", markerMac 9 9)] none

/-- Witness target module: a distinct module object over `same.py`
(e.g. the module re-imported under another name). -/
def tgtSame : PyModule :=
  PyModule.mk 31 "tgtm" (some "same.py") [] none

/-- Witness world whose `samefile` is equality of the two paths. -/
def wSameFile : World :=
  World.mk [] (fun _ => none) (fun a b => a == b)
    (fun _ _ => Except.error "nope")

/-- Concrete instance of C3: requiring `srcm` (file `same.py`) into a
distinct module object over the same file returns `False` and leaves
the target table untouched, although the source's table binds `x`. -/
theorem C3_self_require_noop_witness :
    require wSameFile callerBase (fun s => s) (ModRef.m smSame)
        (Target.mod tgtSame) [("keep", markerMac 8 8)] Assignments.all "" none
      = (Except.ok false, [("keep", markerMac 8 8)]) := by
  exact C3_self_require_noop wSameFile callerBase (fun s => s)
    (ModRef.m smSame) (Target.mod tgtSame) [("keep", markerMac 8 8)]
    Assignments.all "" none (ModRef.m tgtSame) "same.py" "same.py"
    (fun _ => nofun) rfl rfl rfl rfl rfl

/-- The table effect of one assignment pair when its name is found
(identity when absent); used to state what a run of the transfer loop
leaves in the target table. -/
def transferStep (mangle : String → String) (sm : PyModule) (pfx2 : String)
    (tbl : List (String × Macro)) (p : String × String) :
    List (String × Macro) :=
  match lookupTable sm.hy_macros (mangle p.1) with
  | some mac => tblSet tbl (mangle (pfx2 ++ p.2)) mac
  | none => tbl

/-- Witness source module binding only `"good"`. -/
def smPartial : PyModule :=
  PyModule.mk 20 "src" (some "src.py") [("good", markerMac 6 6)] none

/-- Counterexample to C4: requiring `[("good","a"), ("bad","b")]` from a
module binding only `good` raises the require error for `bad`, yet the
target table is NOT left unchanged — the binding for `a` made before the
failure remains (the Python loop mutates the target dict in place). -/
theorem C4_counterexample :
    require wEmpty callerBase (fun s => s) (ModRef.m smPartial)
        (Target.dict []) [] (Assignments.list [("good", "a"), ("bad", "b")])
        "" none
      = (Except.error (RErr.requireErr
          "Could not require name bad from <module 'src'>"),
         [("a", markerMac 6 6)])
    ∧ [("a", markerMac 6 6)] ≠ ([] : List (String × Macro)) := by
  exact ⟨rfl, by simp⟩

/-- C4 (amended): an explicit-list `require` either finds every
requested name and binds all of them, or raises the require error
naming the first missing mangled name and the source module; in the
failure case the pairs before the missing one have already been
transferred, so the final target table is the initial table updated
with exactly those bindings (no rollback).  The last two conjuncts lift
the transfer-loop characterization to `require` itself, for a dict
target and for a derived module target. -/
theorem C4_explicit_list_prefix_transfer :
    (∀ (mangle : String → String) (sm : PyModule) (pfx2 : String)
        (pairs : List (String × String)) (tbl tbl2 : List (String × Macro)),
        transferLoop mangle sm pfx2 pairs tbl = Except.ok tbl2 →
        (∀ p ∈ pairs, ∃ mac, lookupTable sm.hy_macros (mangle p.1) = some mac)
          ∧ tbl2 = pairs.foldl (transferStep mangle sm pfx2) tbl)
    ∧ (∀ (mangle : String → String) (sm : PyModule) (pfx2 : String)
        (pairs : List (String × String)) (tbl : List (String × Macro))
        (msg : String) (tbl2 : List (String × Macro)),
        transferLoop mangle sm pfx2 pairs tbl = Except.error (msg, tbl2) →
        ∃ p1 n a p2, pairs = p1 ++ (n, a) :: p2
          ∧ lookupTable sm.hy_macros (mangle n) = none
          ∧ (∀ p ∈ p1, ∃ mac, lookupTable sm.hy_macros (mangle p.1) = some mac)
          ∧ tbl2 = p1.foldl (transferStep mangle sm pfx2) tbl
          ∧ msg = "Could not require name " ++ mangle n ++ " from "
              ++ moduleDisplay sm)
    ∧ (∀ (w : World) (caller : PyModule) (mangle : String → String)
        (sm : PyModule) (d : List (String × Macro))
        (pairs : List (String × String)) (pfx : String) (tmn : Option String),
        sm.hy_macros ≠ [] →
        require w caller mangle (ModRef.m sm) (Target.dict d) d
            (Assignments.list pairs) pfx tmn
          = (match transferLoop mangle sm
                (if pfx == "" then pfx else pfx ++ ".") pairs d with
             | Except.ok t => (Except.ok true, t)
             | Except.error p => (Except.error (RErr.requireErr p.1), p.2)))
    ∧ (∀ (w : World) (caller : PyModule) (mangle : String → String)
        (sm : PyModule) (target : Target) (tbl : List (String × Macro))
        (pairs : List (String × String)) (pfx : String) (tmn : Option String)
        (tm : ModRef),
        (∀ d, target ≠ Target.dict d) →
        deriveTargetModule w caller target = Except.ok tm →
        same_modules w (ModRef.m sm) tm = false →
        sm.hy_macros ≠ [] →
        require w caller mangle (ModRef.m sm) target tbl
            (Assignments.list pairs) pfx tmn
          = (match transferLoop mangle sm
                (if pfx == "" then pfx else pfx ++ ".") pairs tbl with
             | Except.ok t => (Except.ok true, t)
             | Except.error p => (Except.error (RErr.requireErr p.1), p.2))) := by
  have isEmptyFalse : ∀ (sm : PyModule), sm.hy_macros ≠ [] →
      sm.hy_macros.isEmpty = false := by
    intro sm h
    cases hh : sm.hy_macros
    · exact absurd hh h
    · rfl
  refine ⟨?_, ?_, ?_, ?_⟩
  · intro mangle sm pfx2 pairs
    induction pairs with
    | nil =>
        intro tbl tbl2 h
        simp only [transferLoop] at h
        cases h
        exact ⟨by simp, by simp⟩
    | cons p rest ih =>
        intro tbl tbl2 h
        obtain ⟨name, als⟩ := p
        cases hl : lookupTable sm.hy_macros (mangle name) with
        | none =>
            simp only [transferLoop, hl] at h
            exact (Except.noConfusion h)
        | some mac =>
            simp only [transferLoop, hl] at h
            obtain ⟨hall, heq⟩ := ih _ _ h
            refine ⟨?_, ?_⟩
            · intro q hq
              rcases List.mem_cons.mp hq with hq | hq
              · exact ⟨mac, by rw [hq]; exact hl⟩
              · exact hall q hq
            · simpa [transferStep, hl] using heq
  · intro mangle sm pfx2 pairs
    induction pairs with
    | nil =>
        intro tbl msg tbl2 h
        exact (Except.noConfusion h)
    | cons p rest ih =>
        intro tbl msg tbl2 h
        obtain ⟨name, als⟩ := p
        cases hl : lookupTable sm.hy_macros (mangle name) with
        | none =>
            simp only [transferLoop, hl] at h
            cases h
            exact ⟨[], name, als, rest, by simp, hl, by simp, by simp, rfl⟩
        | some mac =>
            simp only [transferLoop, hl] at h
            obtain ⟨p1, n, a, p2, hsplit, hmiss, hall, htbl, hmsg⟩ :=
              ih _ _ _ h
            refine ⟨(name, als) :: p1, n, a, p2, by rw [hsplit]; rfl,
              hmiss, ?_, ?_, hmsg⟩
            · intro q hq
              rcases List.mem_cons.mp hq with hq | hq
              · exact ⟨mac, by rw [hq]; exact hl⟩
              · exact hall q hq
            · simpa [transferStep, hl] using htbl
  · intro w caller mangle sm d pairs pfx tmn h
    simp [require, isEmptyFalse sm h]
  · intro w caller mangle sm target tbl pairs pfx tmn tm hd hder hsm h
    rcases target with _ | s | md | dd
    · simp [require, hder, hsm, isEmptyFalse sm h]
    · simp [require, hder, hsm, isEmptyFalse sm h]
    · simp [require, hder, hsm, isEmptyFalse sm h]
    · exact absurd rfl (hd dd)

/-- Concrete instance of the amended C4: the failing two-pair require of
the counterexample is exactly characterized — the split point is after
the successful `("good","a")` pair, and the final table is the one-step
fold of the initial empty table. -/
theorem C4_explicit_list_prefix_transfer_witness :
    transferLoop (fun s => s) smPartial "" [("good", "a"), ("bad", "b")] []
      = Except.error
          ("Could not require name bad from <module 'src'>",
           [("a", markerMac 6 6)])
    ∧ (∃ p1 n a p2,
        ([("good", "a"), ("bad", "b")] : List (String × String))
            = p1 ++ (n, a) :: p2
          ∧ lookupTable smPartial.hy_macros n = none
          ∧ [("a", markerMac 6 6)]
              = p1.foldl (transferStep (fun s => s) smPartial "") []) := by
  constructor
  · rfl
  · obtain ⟨p1, n, a, p2, hsplit, hmiss, hall, htbl, hmsg⟩ :=
      C4_explicit_list_prefix_transfer.2.1 (fun s => s) smPartial ""
        [("good", "a"), ("bad", "b")] []
        "Could not require name bad from <module 'src'>"
        [("a", markerMac 6 6)] rfl
    exact ⟨p1, n, a, p2, hsplit, hmiss, htbl⟩

/-- Witness macro returning the terminal compiled-result sentinel 42. -/
def macResult : Macro := Macro.mk 7 (fun _ _ => MacroRet.result 42)

/-- Witness module binding `"res"` to the sentinel-returning macro. -/
def mdResult : PyModule :=
  PyModule.mk 13 "modres" (some "modres.py") [("res", macResult)] none

/-- C5: when the invoked macro returns a terminal compiled-result
sentinel, the expansion loop returns that sentinel immediately if the
caller declared results acceptable, and otherwise returns the
pre-expansion tree, both without looping further and both bypassing the
final normalization; every non-result exit instead returns the final
value normalized by `as_model` — exhibited on raw (non-canonical)
inputs, which come back wrapped as canonical tree values. -/
theorem C5_result_sentinel :
    (∀ (w : World) (md : PyModule) (mangle : String → String) (once : Bool)
        (fuel : Nat) (c : Option Compiler) (f : Model) (args : List Model)
        (fn : String) (mac : Macro) (r : Nat),
        headKey mangle f = some fn →
        resolveHeadName c md w fn = some mac →
        mac.run ((setThis c (Model.expr (f :: args))).map ctxOf) args
          = MacroRet.result r →
        macroexpandGo w md mangle once true (Nat.succ fuel)
            (PyVal.m (Model.expr (f :: args))) c
          = (ExpandResult.result r, setThis c (Model.expr (f :: args)))
        ∧ macroexpandGo w md mangle once false (Nat.succ fuel)
            (PyVal.m (Model.expr (f :: args))) c
          = (ExpandResult.tree (Model.expr (f :: args)),
             setThis c (Model.expr (f :: args))))
    ∧ (∀ (w : World) (md : PyModule) (mangle : String → String)
        (once rok : Bool) (fuel : Nat) (c : Option Compiler) (xs : List PyVal),
        macroexpandGo w md mangle once rok fuel (PyVal.rawList xs) c
          = (ExpandResult.tree (Model.listM (as_model_list xs)), c))
    ∧ (∀ (w : World) (md : PyModule) (mangle : String → String)
        (once rok : Bool) (fuel : Nat) (c : Option Compiler) (n : Int),
        macroexpandGo w md mangle once rok fuel (PyVal.rawInt n) c
          = (ExpandResult.tree (Model.lit n), c)) := by
  refine ⟨?_, ?_, ?_⟩
  · intro w md mangle once fuel c f args fn mac r h1 h2 h3
    constructor <;> simp [macroexpandGo, h1, h2, h3]
  · intro w md mangle once rok fuel c xs
    cases fuel <;> simp [macroexpandGo, as_model]
  · intro w md mangle once rok fuel c n
    cases fuel <;> simp [macroexpandGo, as_model]

/-- Concrete instance of C5: a macro returning sentinel 42 makes the
loop yield the sentinel under `result_ok = true` and the untouched call
form under `result_ok = false`; a raw list input comes back normalized
into a canonical `List` model. -/
theorem C5_result_sentinel_witness :
    macroexpandGo wEmpty mdResult (fun s => s) false true 5
        (PyVal.m (Model.expr [Model.sym "res", Model.lit 1])) none
      = (ExpandResult.result 42, none)
    ∧ macroexpandGo wEmpty mdResult (fun s => s) false false 5
        (PyVal.m (Model.expr [Model.sym "res", Model.lit 1])) none
      = (ExpandResult.tree (Model.expr [Model.sym "res", Model.lit 1]), none)
    ∧ macroexpandGo wEmpty mdResult (fun s => s) false true 5
        (PyVal.rawList [PyVal.rawInt 1, PyVal.m (Model.sym "x")]) none
      = (ExpandResult.tree (Model.listM [Model.lit 1, Model.sym "x"]), none) := by
  have h := C5_result_sentinel.1 wEmpty mdResult (fun s => s) false 4 none
    (Model.sym "res") [Model.lit 1] "res" macResult 42 rfl rfl rfl
  exact ⟨h.1.trans (by rfl), h.2.trans (by rfl),
    (C5_result_sentinel.2.1 wEmpty mdResult (fun s => s) false true 5 none
      [PyVal.rawInt 1, PyVal.m (Model.sym "x")]).trans (by rfl)⟩

/-- C6: a tree with no macro call at its root — not an Expression, an
empty Expression, a head that is neither a Symbol nor a dot-headed
Expression, or a head name that resolves to no macro — is returned by
the expansion loop unchanged up to the final `as_model` normalization
(which is the identity on canonical trees). -/
theorem C6_no_macro_tree_unchanged :
    (∀ (w : World) (md : PyModule) (mangle : String → String)
        (once rok : Bool) (fuel : Nat) (c : Option Compiler) (tree : PyVal),
        (∀ xs, tree ≠ PyVal.m (Model.expr xs)) →
        macroexpandGo w md mangle once rok fuel tree c
          = (ExpandResult.tree (as_model tree), c))
    ∧ (∀ (w : World) (md : PyModule) (mangle : String → String)
        (once rok : Bool) (fuel : Nat) (c : Option Compiler),
        macroexpandGo w md mangle once rok fuel
            (PyVal.m (Model.expr [])) c
          = (ExpandResult.tree (Model.expr []), c))
    ∧ (∀ (w : World) (md : PyModule) (mangle : String → String)
        (once rok : Bool) (fuel : Nat) (c : Option Compiler)
        (f : Model) (args : List Model),
        headKey mangle f = none →
        macroexpandGo w md mangle once rok fuel
            (PyVal.m (Model.expr (f :: args))) c
          = (ExpandResult.tree (Model.expr (f :: args)), c))
    ∧ (∀ (w : World) (md : PyModule) (mangle : String → String)
        (once rok : Bool) (fuel : Nat) (c : Option Compiler)
        (f : Model) (args : List Model) (fn : String),
        headKey mangle f = some fn →
        resolveHeadName c md w fn = none →
        macroexpandGo w md mangle once rok fuel
            (PyVal.m (Model.expr (f :: args))) c
          = (ExpandResult.tree (Model.expr (f :: args)), c)) := by
  refine ⟨?_, ?_, ?_, ?_⟩
  · intro w md mangle once rok fuel c tree h
    rcases tree with x | xs | n
    · rcases x with s | xs | xs | n
      · cases fuel <;> rfl
      · rcases xs with _ | ⟨f, args⟩
        · cases fuel <;> rfl
        · exact absurd rfl (h (f :: args))
      · cases fuel <;> rfl
      · cases fuel <;> rfl
    · cases fuel <;> rfl
    · cases fuel <;> rfl
  · intro w md mangle once rok fuel c
    cases fuel <;> rfl
  · intro w md mangle once rok fuel c f args h
    cases fuel <;> simp [macroexpandGo, h, as_model]
  · intro w md mangle once rok fuel c f args fn h1 h2
    cases fuel <;> simp [macroexpandGo, h1, h2, as_model]

/-- Concrete instance of C6: a bare symbol, a form headed by a literal,
and a form whose head resolves to nothing all come back unchanged. -/
theorem C6_no_macro_tree_unchanged_witness :
    macroexpandGo wEmpty mdNoMacros (fun s => s) false true 3
        (PyVal.m (Model.sym "just-a-symbol")) none
      = (ExpandResult.tree (Model.sym "just-a-symbol"), none)
    ∧ macroexpandGo wEmpty mdNoMacros (fun s => s) false true 3
        (PyVal.m (Model.expr [Model.lit 1, Model.sym "x"])) none
      = (ExpandResult.tree (Model.expr [Model.lit 1, Model.sym "x"]), none)
    ∧ macroexpandGo wEmpty mdNoMacros (fun s => s) false true 3
        (PyVal.m (Model.expr [Model.sym "g"])) none
      = (ExpandResult.tree (Model.expr [Model.sym "g"]), none) := by
  refine ⟨?_, ?_, ?_⟩
  · exact C6_no_macro_tree_unchanged.1 wEmpty mdNoMacros (fun s => s)
      false true 3 none (PyVal.m (Model.sym "just-a-symbol"))
      (fun _ => nofun)
  · exact C6_no_macro_tree_unchanged.2.2.1 wEmpty mdNoMacros (fun s => s)
      false true 3 none (Model.lit 1) [Model.sym "x"] rfl
  · exact C6_no_macro_tree_unchanged.2.2.2 wEmpty mdNoMacros (fun s => s)
      false true 3 none (Model.sym "g") [] "g" rfl rfl

/-- Witness module binding the qualified name `"a.b.c"` (and nothing
else) to the sentinel-returning macro. -/
def mdDotted : PyModule :=
  PyModule.mk 14 "moddot" (some "moddot.py") [("a.b.c", macResult)] none

/-- C7: a call form whose head is an Expression beginning with the
attribute-access marker `Symbol "."` is resolved under the key obtained
by mangling each remaining component and joining with "." — so
`(. a b c)` looks up `"a.b.c"` — a key distinct from the plain-symbol
key whenever the mangles differ; the loop halts when that joined key
resolves to nothing and invokes the resolved macro when it does. -/
theorem C7_dotted_head_lookup :
    (∀ (mangle : String → String) (comps : List Model),
        headKey mangle (Model.expr (Model.sym "." :: comps))
          = some (String.intercalate "."
              (comps.map (fun x => mangle (modelStr x)))))
    ∧ (∀ (mangle : String → String) (s : String) (comps : List Model),
        mangle s ≠ String.intercalate "."
            (comps.map (fun x => mangle (modelStr x))) →
        headKey mangle (Model.sym s)
          ≠ headKey mangle (Model.expr (Model.sym "." :: comps)))
    ∧ (∀ (w : World) (md : PyModule) (mangle : String → String)
        (once rok : Bool) (fuel : Nat) (c : Option Compiler)
        (comps args : List Model),
        resolveHeadName c md w (String.intercalate "."
            (comps.map (fun x => mangle (modelStr x)))) = none →
        macroexpandGo w md mangle once rok fuel
            (PyVal.m (Model.expr
              (Model.expr (Model.sym "." :: comps) :: args))) c
          = (ExpandResult.tree
              (Model.expr (Model.expr (Model.sym "." :: comps) :: args)), c))
    ∧ (∀ (w : World) (md : PyModule) (mangle : String → String)
        (once : Bool) (fuel : Nat) (c : Option Compiler)
        (comps args : List Model) (mac : Macro) (r : Nat),
        resolveHeadName c md w (String.intercalate "."
            (comps.map (fun x => mangle (modelStr x)))) = some mac →
        mac.run ((setThis c (Model.expr
            (Model.expr (Model.sym "." :: comps) :: args))).map ctxOf) args
          = MacroRet.result r →
        macroexpandGo w md mangle once true (Nat.succ fuel)
            (PyVal.m (Model.expr
              (Model.expr (Model.sym "." :: comps) :: args))) c
          = (ExpandResult.result r,
             setThis c (Model.expr
               (Model.expr (Model.sym "." :: comps) :: args)))) := by
  refine ⟨?_, ?_, ?_, ?_⟩
  · intro mangle comps
    rfl
  · intro mangle s comps hne heq
    exact hne (Option.some.inj heq)
  · intro w md mangle once rok fuel c comps args h
    have hk : headKey mangle (Model.expr (Model.sym "." :: comps))
        = some (String.intercalate "."
            (comps.map (fun x => mangle (modelStr x)))) := rfl
    cases fuel <;> simp [macroexpandGo, hk, h, as_model]
  · intro w md mangle once fuel c comps args mac r h1 h2
    have hk : headKey mangle (Model.expr (Model.sym "." :: comps))
        = some (String.intercalate "."
            (comps.map (fun x => mangle (modelStr x)))) := rfl
    simp [macroexpandGo, hk, h1, h2]

/-- Concrete instance of C7: the head `(. a b c)` computes the key
`"a.b.c"`; in a module whose table binds exactly `"a.b.c"`, the call
expands (here to the sentinel); the plain-symbol key `"a"` is a
different key. -/
theorem C7_dotted_head_lookup_witness :
    headKey (fun s => s)
        (Model.expr [Model.sym ".", Model.sym "a", Model.sym "b",
          Model.sym "c"])
      = some "a.b.c"
    ∧ headKey (fun s => s) (Model.sym "a")
        ≠ headKey (fun s => s)
            (Model.expr [Model.sym ".", Model.sym "a", Model.sym "b",
              Model.sym "c"])
    ∧ macroexpandGo wEmpty mdDotted (fun s => s) false true 5
        (PyVal.m (Model.expr
          [Model.expr [Model.sym ".", Model.sym "a", Model.sym "b",
            Model.sym "c"], Model.lit 1])) none
      = (ExpandResult.result 42, none) := by
  refine ⟨?_, ?_, ?_⟩
  · exact (C7_dotted_head_lookup.1 (fun s => s)
      [Model.sym "a", Model.sym "b", Model.sym "c"]).trans (by rfl)
  · exact C7_dotted_head_lookup.2.1 (fun s => s) "a"
      [Model.sym "a", Model.sym "b", Model.sym "c"] (by decide)
  · exact (C7_dotted_head_lookup.2.2.2 wEmpty mdDotted (fun s => s)
      false 4 none [Model.sym "a", Model.sym "b", Model.sym "c"]
      [Model.lit 1] macResult 42 rfl rfl).trans (by rfl)

/-- Witness macro that reflects the `this` slot it observes: it returns
the compiler's current expression (or the literal 0 if none is set). -/
def reflectMac : Macro :=
  Macro.mk 100 (fun c _ => MacroRet.val (match c with
    | some ctx =>
        (match ctx.thisE with
         | some t => PyVal.m t
         | none => PyVal.rawInt 0)
    | none => PyVal.rawInt 0))

/-- Witness module binding `"r"` to the reflecting macro. -/
def mdReflect : PyModule :=
  PyModule.mk 15 "modref" (some "modref.py") [("r", reflectMac)] none

/-- Witness module binding `"m"` to a marker macro expanding to 5. -/
def mdConst : PyModule :=
  PyModule.mk 16 "modc" (some "modc.py") [("m", markerMac 17 5)] none

/-- Witness compiler whose `this` slot holds the marker tree `orig`
before expansion is invoked. -/
def cOrig : Compiler :=
  Compiler.mk [] (some (Model.sym "orig")) none none 16

/-- Counterexample to C9: expanding `(m)` with a compiler whose `this`
slot holds `orig` leaves `this` equal to the call form `(m)` after
`macroexpand` returns — not its value from before the call.  The
engine sets `compiler.this = tree` before each invocation (line 386)
and never restores it. -/
theorem C9_counterexample :
    (macroexpandGo wEmpty mdConst (fun s => s) false true 5
        (PyVal.m (Model.expr [Model.sym "m"])) (some cOrig)).2
      = some (Compiler.mk [] (some (Model.expr [Model.sym "m"]))
          none none 16)
    ∧ cOrig.thisE = some (Model.sym "orig")
    ∧ (some (Model.expr [Model.sym "m"]) : Option Model)
        ≠ some (Model.sym "orig") := by
  refine ⟨rfl, rfl, ?_⟩
  intro h
  exact Model.noConfusion (Option.some.inj h)

/-- C9 (amended): the expansion engine mutates no compiler field other
than `this` — the scope stack, filename, source and module identity
survive any run unchanged — and `this` is set to the call form for each
macro invocation, observably by the macro body itself; but `this` is
not saved and restored: after the run it retains the call form of the
last invocation (see `C9_counterexample`). -/
theorem C9_this_set_not_restored :
    (∀ (w : World) (md : PyModule) (mangle : String → String)
        (once rok : Bool) (fuel : Nat) (tree : PyVal) (c : Compiler),
        ∃ cc,
          (macroexpandGo w md mangle once rok fuel tree (some c)).2 = some cc
          ∧ cc.local_state_stack = c.local_state_stack
          ∧ cc.filename = c.filename
          ∧ cc.source = c.source
          ∧ cc.moduleId = c.moduleId)
    ∧ macroexpandGo wEmpty mdReflect (fun s => s) true true 5
        (PyVal.m (Model.expr [Model.sym "r"]))
        (some (Compiler.mk [] none (some "fn.hy") none 15))
      = (ExpandResult.tree (Model.expr [Model.sym "r"]),
         some (Compiler.mk [] (some (Model.expr [Model.sym "r"]))
           (some "fn.hy") none 15)) := by
  constructor
  · intro w md mangle once rok fuel
    induction fuel with
    | zero =>
        intro tree c
        rcases tree with x | xs | n2
        · rcases x with s | xs | ls | i
          · exact ⟨c, rfl, rfl, rfl, rfl, rfl⟩
          · rcases xs with _ | ⟨f, args⟩
            · exact ⟨c, rfl, rfl, rfl, rfl, rfl⟩
            · cases hk : headKey mangle f with
              | none =>
                  exact ⟨c, by simp [macroexpandGo, hk], rfl, rfl, rfl, rfl⟩
              | some fn =>
                  cases hr : resolveHeadName (some c) md w fn with
                  | none =>
                      exact ⟨c, by simp [macroexpandGo, hk, hr],
                        rfl, rfl, rfl, rfl⟩
                  | some mac =>
                      exact ⟨c, by simp [macroexpandGo, hk, hr],
                        rfl, rfl, rfl, rfl⟩
          · exact ⟨c, rfl, rfl, rfl, rfl, rfl⟩
          · exact ⟨c, rfl, rfl, rfl, rfl, rfl⟩
        · exact ⟨c, rfl, rfl, rfl, rfl, rfl⟩
        · exact ⟨c, rfl, rfl, rfl, rfl, rfl⟩
    | succ n ih =>
        intro tree c
        rcases tree with x | xs | n2
        · rcases x with s | xs | ls | i
          · exact ⟨c, rfl, rfl, rfl, rfl, rfl⟩
          · rcases xs with _ | ⟨f, args⟩
            · exact ⟨c, rfl, rfl, rfl, rfl, rfl⟩
            · cases hk : headKey mangle f with
              | none =>
                  exact ⟨c, by simp [macroexpandGo, hk], rfl, rfl, rfl, rfl⟩
              | some fn =>
                  cases hr : resolveHeadName (some c) md w fn with
                  | none =>
                      exact ⟨c, by simp [macroexpandGo, hk, hr],
                        rfl, rfl, rfl, rfl⟩
                  | some mac =>
                      cases hrun : mac.run
                          ((setThis (some c) (Model.expr (f :: args))).map
                            ctxOf) args with
                      | raises e =>
                          refine ⟨{ c with
                              thisE := some (Model.expr (f :: args)) },
                            ?_, rfl, rfl, rfl, rfl⟩
                          simp only [macroexpandGo, hk, hr, hrun]
                          rfl
                      | result r =>
                          refine ⟨{ c with
                              thisE := some (Model.expr (f :: args)) },
                            ?_, rfl, rfl, rfl, rfl⟩
                          simp only [macroexpandGo, hk, hr, hrun]
                          rfl
                      | val v =>
                          cases ho : once with
                          | true =>
                              refine ⟨{ c with
                                  thisE := some (Model.expr (f :: args)) },
                                ?_, rfl, rfl, rfl, rfl⟩
                              simp only [macroexpandGo, hk, hr, hrun, ho]
                              rfl
                          | false =>
                              obtain ⟨cc, h2, hs, hf, hsrc, hm⟩ :=
                                ih (PyVal.m (replace_hy_obj v
                                    (Model.expr (f :: args))))
                                  { c with
                                      thisE := some (Model.expr (f :: args)) }
                              rw [ho] at h2
                              refine ⟨cc, ?_, hs, hf, hsrc, hm⟩
                              simp only [macroexpandGo, hk, hr, hrun]
                              exact h2
          · exact ⟨c, rfl, rfl, rfl, rfl, rfl⟩
          · exact ⟨c, rfl, rfl, rfl, rfl, rfl⟩
        · exact ⟨c, rfl, rfl, rfl, rfl, rfl⟩
        · exact ⟨c, rfl, rfl, rfl, rfl, rfl⟩
  · rfl

/-- Concrete instance of the amended C9: in the reflecting-macro run of
the amended theorem, every compiler field except `this` is preserved. -/
theorem C9_this_set_not_restored_witness :
    ∃ cc,
      (macroexpandGo wEmpty mdReflect (fun s => s) true true 5
          (PyVal.m (Model.expr [Model.sym "r"]))
          (some (Compiler.mk [] none (some "fn.hy") none 15))).2 = some cc
      ∧ cc.local_state_stack = []
      ∧ cc.filename = some "fn.hy"
      ∧ cc.source = none
      ∧ cc.moduleId = 15 := by
  exact C9_this_set_not_restored.1 wEmpty mdReflect (fun s => s) true true 5
    (PyVal.m (Model.expr [Model.sym "r"]))
    (Compiler.mk [] none (some "fn.hy") none 15)

/-- Helper: two module references whose filenames both resolve and are
reported the same by `os.path.samefile` compare as the same module
(whichever way the identity shortcut goes). -/
theorem same_modules_of_samefile (w : World) (src tm : ModRef) (f g : String)
    (htr : truthyRef src = true) (hf : get_filename w src = some f)
    (hg : get_filename w tm = some g) (hsf : w.samefile f g = true) :
    same_modules w src tm = true := by
  unfold same_modules
  rw [htr]
  cases hid : identicalRef src tm <;> simp [hid, hf, hg, hsf]

/-- Helper: a non-dict `require` whose source and derived target compare
as the same module returns `False` with the table untouched. -/
theorem require_noop_of_same_modules
    (w : World) (caller : PyModule) (mangle : String → String)
    (source : ModRef) (target : Target) (tbl : List (String × Macro))
    (assignments : Assignments) (pfx : String) (tmn : Option String)
    (tm : ModRef)
    (hd : ∀ d, target ≠ Target.dict d)
    (hder : deriveTargetModule w caller target = Except.ok tm)
    (hsm : same_modules w source tm = true) :
    require w caller mangle source target tbl assignments pfx tmn
      = (Except.ok false, tbl) := by
  rcases target with _ | s | md | d
  · simp [require, hder, hsm]
  · simp [require, hder, hsm]
  · simp [require, hder, hsm]
  · exact absurd rfl (hd d)

/-- Helper: a non-empty macro table is not `isEmpty`. -/
theorem hy_macros_isEmpty_false (sm : PyModule) (h : sm.hy_macros ≠ []) :
    sm.hy_macros.isEmpty = false := by
  cases hh : sm.hy_macros
  · exact absurd hh h
  · rfl

/-- The table state after one submodule require of the empty-source
fallback: the recursion threads the shared mutable target dict, so each
pair's effect is the final table of its inner `ALL` require. -/
def submodStep (w : World) (caller : PyModule) (mangle : String → String)
    (sm : PyModule) (tgt : Target) (tbl : List (String × Macro))
    (p : String × String) : List (String × Macro) :=
  (requireAllCore w caller mangle
    (ModRef.nameRef (sm.name ++ "." ++ mangle p.1)) tgt tbl p.2 none).2

/-- The re-raise policy of the fallback's `except HyRequireError` clause
(lines 231-236): a `HyRequireError` from the recursion becomes the
"Cannot import name ... from ..." error naming the requested name and
the source module; any other exception kind propagates unchanged. -/
def submodReraise (name : String) (sm : PyModule) : RErr → RErr
  | RErr.requireErr _ =>
      RErr.requireErr ("Cannot import name '" ++ name ++ "' from '"
        ++ sm.name ++ "' (" ++ fileDisplay sm ++ ")")
  | e => e

/-- Helper: full characterization of a successful run of the submodule
fallback loop, over any target and any list: the result is `True`, the
final table is the left fold of the per-pair effects, and every pair's
inner `ALL` require (over the table threaded through its predecessors)
returned successfully. -/
theorem requireSubmodsGo_ok_iff (w : World) (caller : PyModule)
    (mangle : String → String) (sm : PyModule) (tgt : Target)
    (pairs : List (String × String)) :
    ∀ (tbl : List (String × Macro)) (res : Bool)
      (tbl2 : List (String × Macro)),
      requireSubmodsGo w caller mangle sm tgt pairs tbl
        = (Except.ok res, tbl2) →
      res = true
      ∧ tbl2 = pairs.foldl (submodStep w caller mangle sm tgt) tbl
      ∧ (∀ p1 p p2, pairs = p1 ++ p :: p2 →
          ∃ b, (requireAllCore w caller mangle
              (ModRef.nameRef (sm.name ++ "." ++ mangle p.1)) tgt
              (p1.foldl (submodStep w caller mangle sm tgt) tbl)
              p.2 none).1
            = Except.ok b) := by
  induction pairs with
  | nil =>
      intro tbl res tbl2 h
      simp only [requireSubmodsGo, Prod.mk.injEq, Except.ok.injEq] at h
      obtain ⟨h1, h2⟩ := h
      subst h1
      subst h2
      refine ⟨rfl, by simp, ?_⟩
      intro p1 p p2 hdec
      rcases p1 with _ | ⟨x, xs⟩ <;> exact List.noConfusion hdec
  | cons p rest ih =>
      intro tbl res tbl2 h
      obtain ⟨name, als⟩ := p
      rcases hc : requireAllCore w caller mangle
          (ModRef.nameRef (sm.name ++ "." ++ mangle name)) tgt tbl als none
        with ⟨r, t⟩
      have hstep : submodStep w caller mangle sm tgt tbl (name, als) = t := by
        simp only [submodStep, hc]
      rcases r with e1 | b
      · rcases e1 with m | m | m <;>
          · simp only [requireSubmodsGo, hc] at h
            simp at h
      · simp only [requireSubmodsGo, hc] at h
        obtain ⟨h1, h2, h3⟩ := ih t res tbl2 h
        refine ⟨h1, ?_, ?_⟩
        · rw [List.foldl_cons, hstep]
          exact h2
        · intro p1 q p2 hdec
          rcases p1 with _ | ⟨x, xs⟩
          · simp only [List.nil_append] at hdec
            injection hdec with hq hrest
            subst hq
            exact ⟨b, by simp [hc]⟩
          · injection hdec with hx hrest
            obtain ⟨b', hb'⟩ := h3 xs q p2 hrest
            refine ⟨b', ?_⟩
            rw [List.foldl_cons, ← hx, hstep]
            exact hb'

/-- Helper: full characterization of a failing run of the submodule
fallback loop, over any target and any list: the list splits at a
failing pair, every earlier pair's inner `ALL` require succeeded (over
its threaded table), the failing pair's inner require raised some error
over the table accumulated so far — whose writes remain in the final
table — and the surfaced error is that error re-raised by the `except
HyRequireError` policy. -/
theorem requireSubmodsGo_error_iff (w : World) (caller : PyModule)
    (mangle : String → String) (sm : PyModule) (tgt : Target)
    (pairs : List (String × String)) :
    ∀ (tbl : List (String × Macro)) (e : RErr)
      (tblX : List (String × Macro)),
      requireSubmodsGo w caller mangle sm tgt pairs tbl
        = (Except.error e, tblX) →
      ∃ p1 n a p2 e0,
        pairs = p1 ++ (n, a) :: p2
        ∧ (∀ q1 q q2, p1 = q1 ++ q :: q2 →
            ∃ b, (requireAllCore w caller mangle
                (ModRef.nameRef (sm.name ++ "." ++ mangle q.1)) tgt
                (q1.foldl (submodStep w caller mangle sm tgt) tbl)
                q.2 none).1
              = Except.ok b)
        ∧ requireAllCore w caller mangle
            (ModRef.nameRef (sm.name ++ "." ++ mangle n)) tgt
            (p1.foldl (submodStep w caller mangle sm tgt) tbl) a none
          = (Except.error e0, tblX)
        ∧ e = submodReraise n sm e0 := by
  induction pairs with
  | nil =>
      intro tbl e tblX h
      simp only [requireSubmodsGo] at h
      simp at h
  | cons p rest ih =>
      intro tbl e tblX h
      obtain ⟨name, als⟩ := p
      rcases hc : requireAllCore w caller mangle
          (ModRef.nameRef (sm.name ++ "." ++ mangle name)) tgt tbl als none
        with ⟨r, t⟩
      have hstep : submodStep w caller mangle sm tgt tbl (name, als) = t := by
        simp only [submodStep, hc]
      rcases r with e1 | b
      · rcases e1 with m | m | m
        · simp only [requireSubmodsGo, hc, Prod.mk.injEq,
            Except.error.injEq] at h
          obtain ⟨h1, h2⟩ := h
          refine ⟨[], name, als, rest, RErr.requireErr m, rfl, ?_, ?_, ?_⟩
          · intro q1 q q2 hq
            rcases q1 with _ | ⟨x, xs⟩ <;> exact List.noConfusion hq
          · simp only [List.foldl_nil]
            rw [← h2]
            exact hc
          · rw [← h1]
            rfl
        · simp only [requireSubmodsGo, hc, Prod.mk.injEq,
            Except.error.injEq] at h
          obtain ⟨h1, h2⟩ := h
          refine ⟨[], name, als, rest, RErr.typeErr m, rfl, ?_, ?_, ?_⟩
          · intro q1 q q2 hq
            rcases q1 with _ | ⟨x, xs⟩ <;> exact List.noConfusion hq
          · simp only [List.foldl_nil]
            rw [← h2]
            exact hc
          · rw [← h1]
            rfl
        · simp only [requireSubmodsGo, hc, Prod.mk.injEq,
            Except.error.injEq] at h
          obtain ⟨h1, h2⟩ := h
          refine ⟨[], name, als, rest, RErr.importErr m, rfl, ?_, ?_, ?_⟩
          · intro q1 q q2 hq
            rcases q1 with _ | ⟨x, xs⟩ <;> exact List.noConfusion hq
          · simp only [List.foldl_nil]
            rw [← h2]
            exact hc
          · rw [← h1]
            rfl
      · simp only [requireSubmodsGo, hc] at h
        obtain ⟨p1, n, a, p2, e0, hsplit, hearlier, hcall, herr⟩ :=
          ih t e tblX h
        refine ⟨(name, als) :: p1, n, a, p2, e0, by rw [hsplit]; rfl,
          ?_, ?_, herr⟩
        · intro q1 q q2 hq
          rcases q1 with _ | ⟨x, xs⟩
          · simp only [List.nil_append] at hq
            injection hq with hq1 hq2
            subst hq1
            exact ⟨b, by simp [hc]⟩
          · injection hq with hx hrest
            obtain ⟨b', hb'⟩ := hearlier xs q q2 hrest
            refine ⟨b', ?_⟩
            rw [List.foldl_cons, ← hx, hstep]
            exact hb'
        · rw [List.foldl_cons, hstep]
          exact hcall

/-- Helper: for an empty-source explicit-list require with a dict
target, `require` is exactly the submodule fallback loop over the
dict. -/
theorem require_list_fallback_dict (w : World) (caller : PyModule)
    (mangle : String → String) (sm : PyModule) (d : List (String × Macro))
    (pairs : List (String × String)) (pfx : String) (tmn : Option String)
    (h : sm.hy_macros = []) :
    require w caller mangle (ModRef.m sm) (Target.dict d) d
        (Assignments.list pairs) pfx tmn
      = requireSubmodsGo w caller mangle sm (Target.dict d) pairs d := by
  have hie : sm.hy_macros.isEmpty = true := by rw [h]; rfl
  simp [require, hie, modRefToTarget]

/-- Helper: for an empty-source explicit-list require with a `None`,
module or string target (derived to `tm`, not the same module),
`require` is exactly the submodule fallback loop over the derived
target. -/
theorem require_list_fallback_nondict (w : World) (caller : PyModule)
    (mangle : String → String) (sm : PyModule) (target : Target)
    (tbl : List (String × Macro)) (pairs : List (String × String))
    (pfx : String) (tmn : Option String) (tm : ModRef)
    (hd : ∀ d, target ≠ Target.dict d)
    (hder : deriveTargetModule w caller target = Except.ok tm)
    (hsm : same_modules w (ModRef.m sm) tm = false)
    (h : sm.hy_macros = []) :
    require w caller mangle (ModRef.m sm) target tbl
        (Assignments.list pairs) pfx tmn
      = requireSubmodsGo w caller mangle sm (modRefToTarget tm target)
          pairs tbl := by
  have hie : sm.hy_macros.isEmpty = true := by rw [h]; rfl
  rcases target with _ | s | md | dd
  · simp [require, hder, hsm, hie]
  · simp [require, hder, hsm, hie]
  · simp [require, hder, hsm, hie]
  · exact absurd rfl (hd dd)

/-- C8: when the source module's macro table is empty, `require` with
`ALL` or `EXPORTS` returns `False` (for dict and non-dict targets
alike); with an explicit list — for any target — `require` is the
submodule fallback loop (third and fourth conjuncts), which requires
EACH bare name as the submodule `source.name` with `ALL` semantics
under its alias as prefix: a successful run transfers every
submodule's macros in order (fold of the per-name effects, each inner
require succeeding over the threaded table — fifth conjunct), and ANY
require failure during the recursion — at whatever position, after any
number of successful names — is re-raised as the "Cannot import name
... from ..." error naming the requested name and the source module,
with the writes already made by the recursion left in place (sixth
conjunct). -/
theorem C8_empty_source_submodule_fallback :
    (∀ (w : World) (caller : PyModule) (mangle : String → String)
        (sm : PyModule) (d : List (String × Macro)) (pfx : String)
        (tmn : Option String),
        sm.hy_macros = [] →
        require w caller mangle (ModRef.m sm) (Target.dict d) d
            Assignments.all pfx tmn = (Except.ok false, d)
        ∧ require w caller mangle (ModRef.m sm) (Target.dict d) d
            Assignments.exports pfx tmn = (Except.ok false, d))
    ∧ (∀ (w : World) (caller : PyModule) (mangle : String → String)
        (sm : PyModule) (target : Target) (tbl : List (String × Macro))
        (pfx : String) (tmn : Option String) (tm : ModRef),
        (∀ d, target ≠ Target.dict d) →
        deriveTargetModule w caller target = Except.ok tm →
        same_modules w (ModRef.m sm) tm = false →
        sm.hy_macros = [] →
        require w caller mangle (ModRef.m sm) target tbl
            Assignments.all pfx tmn = (Except.ok false, tbl)
        ∧ require w caller mangle (ModRef.m sm) target tbl
            Assignments.exports pfx tmn = (Except.ok false, tbl))
    ∧ (∀ (w : World) (caller : PyModule) (mangle : String → String)
        (sm : PyModule) (d : List (String × Macro))
        (pairs : List (String × String)) (pfx : String)
        (tmn : Option String),
        sm.hy_macros = [] →
        require w caller mangle (ModRef.m sm) (Target.dict d) d
            (Assignments.list pairs) pfx tmn
          = requireSubmodsGo w caller mangle sm (Target.dict d) pairs d)
    ∧ (∀ (w : World) (caller : PyModule) (mangle : String → String)
        (sm : PyModule) (target : Target) (tbl : List (String × Macro))
        (pairs : List (String × String)) (pfx : String)
        (tmn : Option String) (tm : ModRef),
        (∀ d, target ≠ Target.dict d) →
        deriveTargetModule w caller target = Except.ok tm →
        same_modules w (ModRef.m sm) tm = false →
        sm.hy_macros = [] →
        require w caller mangle (ModRef.m sm) target tbl
            (Assignments.list pairs) pfx tmn
          = requireSubmodsGo w caller mangle sm (modRefToTarget tm target)
              pairs tbl)
    ∧ (∀ (w : World) (caller : PyModule) (mangle : String → String)
        (sm : PyModule) (tgt : Target) (pairs : List (String × String))
        (tbl : List (String × Macro)) (res : Bool)
        (tbl2 : List (String × Macro)),
        requireSubmodsGo w caller mangle sm tgt pairs tbl
          = (Except.ok res, tbl2) →
        res = true
        ∧ tbl2 = pairs.foldl (submodStep w caller mangle sm tgt) tbl
        ∧ (∀ p1 p p2, pairs = p1 ++ p :: p2 →
            ∃ b, (requireAllCore w caller mangle
                (ModRef.nameRef (sm.name ++ "." ++ mangle p.1)) tgt
                (p1.foldl (submodStep w caller mangle sm tgt) tbl)
                p.2 none).1
              = Except.ok b))
    ∧ (∀ (w : World) (caller : PyModule) (mangle : String → String)
        (sm : PyModule) (tgt : Target) (pairs : List (String × String))
        (tbl : List (String × Macro)) (e : RErr)
        (tblX : List (String × Macro)),
        requireSubmodsGo w caller mangle sm tgt pairs tbl
          = (Except.error e, tblX) →
        ∃ p1 n a p2 e0,
          pairs = p1 ++ (n, a) :: p2
          ∧ (∀ q1 q q2, p1 = q1 ++ q :: q2 →
              ∃ b, (requireAllCore w caller mangle
                  (ModRef.nameRef (sm.name ++ "." ++ mangle q.1)) tgt
                  (q1.foldl (submodStep w caller mangle sm tgt) tbl)
                  q.2 none).1
                = Except.ok b)
          ∧ requireAllCore w caller mangle
              (ModRef.nameRef (sm.name ++ "." ++ mangle n)) tgt
              (p1.foldl (submodStep w caller mangle sm tgt) tbl) a none
            = (Except.error e0, tblX)
          ∧ e = submodReraise n sm e0) := by
  refine ⟨?_, ?_, ?_, ?_, ?_, ?_⟩
  · intro w caller mangle sm d pfx tmn h
    have hie : sm.hy_macros.isEmpty = true := by rw [h]; rfl
    constructor <;> simp [require, hie]
  · intro w caller mangle sm target tbl pfx tmn tm hd hder hsm h
    have hie : sm.hy_macros.isEmpty = true := by rw [h]; rfl
    constructor <;>
      (rcases target with _ | s | md | dd
       · simp [require, hder, hsm, hie]
       · simp [require, hder, hsm, hie]
       · simp [require, hder, hsm, hie]
       · exact absurd rfl (hd dd))
  · intro w caller mangle sm d pairs pfx tmn h
    exact require_list_fallback_dict w caller mangle sm d pairs pfx tmn h
  · intro w caller mangle sm target tbl pairs pfx tmn tm hd hder hsm h
    exact require_list_fallback_nondict w caller mangle sm target tbl pairs
      pfx tmn tm hd hder hsm h
  · intro w caller mangle sm tgt pairs tbl res tbl2 h
    exact requireSubmodsGo_ok_iff w caller mangle sm tgt pairs tbl res tbl2 h
  · intro w caller mangle sm tgt pairs tbl e tblX h
    exact requireSubmodsGo_error_iff w caller mangle sm tgt pairs tbl e tblX h

/-- Witness package module: exposes no macros of its own. -/
def smPkg : PyModule :=
  PyModule.mk 22 "pkg" (some "pkg/init.py") [] none

/-- Witness world in which only the submodule `pkg.sub` is importable,
binding one macro named `inner`. -/
def wPkgSub : World :=
  World.mk [] (fun _ => none) (fun _ _ => false) (fun n _ =>
    if n == "pkg.sub" then
      Except.ok (PyModule.mk 23 "pkg.sub" (some "pkg/sub.py")
        [("inner", markerMac 24 24)] none)
    else Except.error "No module named pkg.sub")

/-- Witness world in which the submodules `pkg.sub` and `pkg.sub2` are
importable, binding `inner` and `other` respectively. -/
def wPkgSub2 : World :=
  World.mk [] (fun _ => none) (fun _ _ => false) (fun n _ =>
    if n == "pkg.sub" then
      Except.ok (PyModule.mk 23 "pkg.sub" (some "pkg/sub.py")
        [("inner", markerMac 24 24)] none)
    else if n == "pkg.sub2" then
      Except.ok (PyModule.mk 26 "pkg.sub2" (some "pkg/sub2.py")
        [("other", markerMac 26 26)] none)
    else Except.error "No module named that")

/-- Witness target module for the non-dict fallback run, over a file
distinct from the package's. -/
def tgtPkgMod : PyModule :=
  PyModule.mk 25 "tgtpkg" (some "tgt.py") [] none

/-- Concrete instance of C8: `ALL` on the empty `pkg` returns `False`;
a two-name list whose first submodule imports and whose second does not
transfers `p.inner` and then fails with the "Cannot import name 'bad'
from 'pkg'" error, keeping the first name's writes; the same fallback
runs for a module (non-dict) target; a two-name all-importable list
folds both submodules' macros into the table under their alias
prefixes; and the failing run decomposes exactly as the failure
characterization states. -/
theorem C8_empty_source_submodule_fallback_witness :
    require wEmpty callerBase (fun s => s) (ModRef.m smPkg) (Target.dict [])
        [] Assignments.all "" none
      = (Except.ok false, [])
    ∧ require wPkgSub callerBase (fun s => s) (ModRef.m smPkg)
        (Target.dict []) [] (Assignments.list [("sub", "p"), ("bad", "q")])
        "" none
      = (Except.error (RErr.requireErr
          "Cannot import name 'bad' from 'pkg' (pkg/init.py)"),
         [("p.inner", markerMac 24 24)])
    ∧ require wPkgSub callerBase (fun s => s) (ModRef.m smPkg)
        (Target.mod tgtPkgMod) [] (Assignments.list [("sub", "p")]) "" none
      = (Except.ok true, [("p.inner", markerMac 24 24)])
    ∧ ([("p.inner", markerMac 24 24), ("q.other", markerMac 26 26)]
        : List (String × Macro))
      = [("sub", "p"), ("sub2", "q")].foldl
          (submodStep wPkgSub2 callerBase (fun s => s) smPkg
            (Target.dict [])) []
    ∧ (∃ p1 n a p2 e0,
        ([("sub", "p"), ("bad", "q")] : List (String × String))
          = p1 ++ (n, a) :: p2
        ∧ requireAllCore wPkgSub callerBase (fun s => s)
            (ModRef.nameRef (smPkg.name ++ "." ++ n)) (Target.dict [])
            (p1.foldl (submodStep wPkgSub callerBase (fun s => s) smPkg
              (Target.dict [])) []) a none
          = (Except.error e0, [("p.inner", markerMac 24 24)])
        ∧ RErr.requireErr
            "Cannot import name 'bad' from 'pkg' (pkg/init.py)"
          = submodReraise n smPkg e0) := by
  refine ⟨?_, ?_, ?_, ?_, ?_⟩
  · exact (C8_empty_source_submodule_fallback.1 wEmpty callerBase
      (fun s => s) smPkg [] "" none rfl).1
  · exact (C8_empty_source_submodule_fallback.2.2.1 wPkgSub callerBase
      (fun s => s) smPkg [] [("sub", "p"), ("bad", "q")] "" none rfl).trans
      (by rfl)
  · exact (C8_empty_source_submodule_fallback.2.2.2.1 wPkgSub callerBase
      (fun s => s) smPkg (Target.mod tgtPkgMod) [] [("sub", "p")] "" none
      (ModRef.m tgtPkgMod) (fun _ => nofun) rfl rfl rfl).trans (by rfl)
  · exact (C8_empty_source_submodule_fallback.2.2.2.2.1 wPkgSub2 callerBase
      (fun s => s) smPkg (Target.dict []) [("sub", "p"), ("sub2", "q")] []
      true [("p.inner", markerMac 24 24), ("q.other", markerMac 26 26)]
      rfl).2.1
  · obtain ⟨p1, n, a, p2, e0, hsplit, hearlier, hcall, herr⟩ :=
      C8_empty_source_submodule_fallback.2.2.2.2.2 wPkgSub callerBase
        (fun s => s) smPkg (Target.dict []) [("sub", "p"), ("bad", "q")] []
        (RErr.requireErr "Cannot import name 'bad' from 'pkg' (pkg/init.py)")
        [("p.inner", markerMac 24 24)] rfl
    exact ⟨p1, n, a, p2, e0, hsplit, hcall, herr⟩

/-- C10: a raw-dict target skips the self-require check entirely —
bindings are copied into the dict even when the source module resolves
to the same underlying file as the calling module (first conjunct: the
transfer happens and none of the file-identity hypotheses are needed
for it) — whereas a `None`, module or string target in the same
situation makes the call a no-op returning `False`. -/
theorem C10_dict_target_skips_self_check :
    (∀ (w : World) (caller : PyModule) (mangle : String → String)
        (sm : PyModule) (d : List (String × Macro)) (n a : String)
        (tmn : Option String) (mac : Macro) (f g : String),
        get_filename w (ModRef.m sm) = some f →
        get_filename w (ModRef.nameRef caller.name) = some g →
        w.samefile f g = true →
        lookupTable sm.hy_macros (mangle n) = some mac →
        sm.hy_macros ≠ [] →
        require w caller mangle (ModRef.m sm) (Target.dict d) d
            (Assignments.list [(n, a)]) "" tmn
          = (Except.ok true, tblSet d (mangle ("" ++ a)) mac))
    ∧ (∀ (w : World) (caller : PyModule) (mangle : String → String)
        (sm : PyModule) (tbl : List (String × Macro))
        (assignments : Assignments) (pfx : String) (tmn : Option String)
        (f g : String),
        get_filename w (ModRef.m sm) = some f →
        get_filename w (ModRef.nameRef caller.name) = some g →
        w.samefile f g = true →
        require w caller mangle (ModRef.m sm) Target.noneT tbl
            assignments pfx tmn
          = (Except.ok false, tbl))
    ∧ (∀ (w : World) (caller : PyModule) (mangle : String → String)
        (sm tmd : PyModule) (tbl : List (String × Macro))
        (assignments : Assignments) (pfx : String) (tmn : Option String)
        (f g : String),
        get_filename w (ModRef.m sm) = some f →
        get_filename w (ModRef.m tmd) = some g →
        w.samefile f g = true →
        require w caller mangle (ModRef.m sm) (Target.mod tmd) tbl
            assignments pfx tmn
          = (Except.ok false, tbl))
    ∧ (∀ (w : World) (caller : PyModule) (mangle : String → String)
        (sm : PyModule) (sTgt : String) (tmd : PyModule)
        (tbl : List (String × Macro)) (assignments : Assignments)
        (pfx : String) (tmn : Option String) (f g : String),
        w.pyImport sTgt none = Except.ok tmd →
        get_filename w (ModRef.m sm) = some f →
        get_filename w (ModRef.m tmd) = some g →
        w.samefile f g = true →
        require w caller mangle (ModRef.m sm) (Target.str sTgt) tbl
            assignments pfx tmn
          = (Except.ok false, tbl)) := by
  refine ⟨?_, ?_, ?_, ?_⟩
  · intro w caller mangle sm d n a tmn mac f g hf hg hsf hlook hne
    have hie := hy_macros_isEmpty_false sm hne
    simp [require, hie, transferLoop, hlook]
  · intro w caller mangle sm tbl assignments pfx tmn f g hf hg hsf
    exact require_noop_of_same_modules w caller mangle (ModRef.m sm)
      Target.noneT tbl assignments pfx tmn (ModRef.nameRef caller.name)
      (fun _ => nofun) rfl
      (same_modules_of_samefile w (ModRef.m sm) (ModRef.nameRef caller.name)
        f g rfl hf hg hsf)
  · intro w caller mangle sm tmd tbl assignments pfx tmn f g hf hg hsf
    exact require_noop_of_same_modules w caller mangle (ModRef.m sm)
      (Target.mod tmd) tbl assignments pfx tmn (ModRef.m tmd)
      (fun _ => nofun) rfl
      (same_modules_of_samefile w (ModRef.m sm) (ModRef.m tmd)
        f g rfl hf hg hsf)
  · intro w caller mangle sm sTgt tmd tbl assignments pfx tmn f g
      himp hf hg hsf
    exact require_noop_of_same_modules w caller mangle (ModRef.m sm)
      (Target.str sTgt) tbl assignments pfx tmn (ModRef.m tmd)
      (fun _ => nofun) (by simp [deriveTargetModule, himp])
      (same_modules_of_samefile w (ModRef.m sm) (ModRef.m tmd)
        f g rfl hf hg hsf)

/-- Witness source module living in the caller's own file. -/
def smCallerFile : PyModule :=
  PyModule.mk 32 "srcc" (some "caller.py") [("x", markerMac 9 9)] none

/-- Witness world that can resolve the caller's name to its file,
compares files by equality, and imports `"tmod"` to `tgtSame`. -/
def wCallerSpec : World :=
  World.mk [] (fun nm => if nm == "caller" then some "caller.py" else none)
    (fun a b => a == b)
    (fun nm _ => if nm == "tmod" then Except.ok tgtSame
      else Except.error "nope")

/-- Concrete instance of C10: with source `srcc` living in the caller's
own file `caller.py`, a dict target still receives the binding (under
alias `ax`), while a `None` target — the calling module itself — makes
the same require a no-op returning `False`; and with source and target
over the file `same.py`, module and string targets are no-ops too. -/
theorem C10_dict_target_skips_self_check_witness :
    require wCallerSpec callerBase (fun s => s) (ModRef.m smCallerFile)
        (Target.dict []) [] (Assignments.list [("x", "ax")]) "" none
      = (Except.ok true, [("ax", markerMac 9 9)])
    ∧ require wCallerSpec callerBase (fun s => s) (ModRef.m smCallerFile)
        Target.noneT [("keep", markerMac 8 8)] Assignments.all "" none
      = (Except.ok false, [("keep", markerMac 8 8)])
    ∧ require wSameFile callerBase (fun s => s) (ModRef.m smSame)
        (Target.mod tgtSame) [] (Assignments.list [("x", "ax")]) "" none
      = (Except.ok false, [])
    ∧ require wCallerSpec callerBase (fun s => s) (ModRef.m smSame)
        (Target.str "tmod") [] (Assignments.list [("x", "ax")]) "" none
      = (Except.ok false, []) := by
  refine ⟨?_, ?_, ?_, ?_⟩
  · exact (C10_dict_target_skips_self_check.1 wCallerSpec callerBase
      (fun s => s) smCallerFile [] "x" "ax" none (markerMac 9 9)
      "caller.py" "caller.py" rfl rfl rfl rfl (by simp [smCallerFile])).trans (by rfl)
  · exact C10_dict_target_skips_self_check.2.1 wCallerSpec callerBase
      (fun s => s) smCallerFile [("keep", markerMac 8 8)] Assignments.all
      "" none "caller.py" "caller.py" rfl rfl rfl
  · exact C10_dict_target_skips_self_check.2.2.1 wSameFile callerBase
      (fun s => s) smSame tgtSame [] (Assignments.list [("x", "ax")])
      "" none "same.py" "same.py" rfl rfl rfl
  · exact C10_dict_target_skips_self_check.2.2.2 wCallerSpec callerBase
      (fun s => s) smSame "tmod" tgtSame [] (Assignments.list [("x", "ax")])
      "" none "same.py" "same.py" rfl rfl rfl rfl
